import Mathlib

/-!
Verification of the tui-slider widget core: the `SliderState` value/bounds
model (`src/state.rs`) and the horizontal bar renderer with its fill pass,
handle placement and label/value layout (`src/slider.rs`).

Numeric model: the Rust code works on `f64`; all the verified claims are
about order, clamping and exact branch structure, so `f64` values are
embedded as `ℚ` (total order, exact arithmetic, decidable comparisons) and
`f64::EPSILON = 2⁻⁵²` is carried over literally.  Machine-integer widths
(`u16`/`usize`) are embedded as `ℕ`; Rust `saturating_sub` is `ℕ`
subtraction.
-/

namespace TuiSlider

/-- Model of `f64::EPSILON` = 2⁻⁵², the machine-epsilon constant used by
`SliderState::percentage` for its degenerate-range guard. -/
def EPSILON : ℚ := 1 / 4503599627370496

/-- Rust `f64::clamp(self, min, max)`:
`if self < min { min } else if self > max { max } else { self }`. -/
def rustClamp (x lo hi : ℚ) : ℚ :=
  if x < lo then lo else if hi < x then hi else x

/-- Model of `SliderState` (src/state.rs): current value, bounds, and step size. -/
structure SliderState where
  value : ℚ
  min : ℚ
  max : ℚ
  step : ℚ
deriving DecidableEq

/-- Model of `SliderState::new` (src/state.rs:116): asserts `min < max` (modelled as
`none` on the panicking path), clamps the value, and uses default step 1. -/
def SliderState.new (value mn mx : ℚ) : Option SliderState :=
  if mn < mx then some ⟨rustClamp value mn mx, mn, mx, 1⟩ else none

/-- Model of `SliderState::with_step` (src/state.rs:425): asserts `min < max` then
`step > 0`, clamps the value and stores the given step. -/
def SliderState.with_step (value mn mx step : ℚ) : Option SliderState :=
  if mn < mx then
    if 0 < step then some ⟨rustClamp value mn mx, mn, mx, step⟩ else none
  else none

/-- Model of `SliderState::set_value` (src/state.rs:156): clamp into `[min, max]`. -/
def SliderState.set_value (s : SliderState) (v : ℚ) : SliderState :=
  { s with value := rustClamp v s.min s.max }

/-- Model of `SliderState::set_min` (src/state.rs:203): asserts `min < self.max`,
then re-clamps the current value. -/
def SliderState.set_min (s : SliderState) (m : ℚ) : Option SliderState :=
  if m < s.max then some { s with min := m, value := rustClamp s.value m s.max }
  else none

/-- Model of `SliderState::set_max` (src/state.rs:224): asserts `max > self.min`,
then re-clamps the current value. -/
def SliderState.set_max (s : SliderState) (m : ℚ) : Option SliderState :=
  if s.min < m then some { s with max := m, value := rustClamp s.value s.min m }
  else none

/-- Model of `SliderState::percentage` (src/state.rs:243): `0.0` behind the
degenerate-range guard `(max - min).abs() < f64::EPSILON`, otherwise
`(value - min) / (max - min)` with no further clamping. -/
def SliderState.percentage (s : SliderState) : ℚ :=
  if |s.max - s.min| < EPSILON then 0 else (s.value - s.min) / (s.max - s.min)

/-- Model of `SliderState::set_percentage` (src/state.rs:266): clamp the percentage
to `[0,1]`, then `set_value(min + (max - min) * clamped)`. -/
def SliderState.set_percentage (s : SliderState) (p : ℚ) : SliderState :=
  s.set_value (s.min + (s.max - s.min) * rustClamp p 0 1)

/-- Model of `SliderState::increase` (src/state.rs:288). -/
def SliderState.increase (s : SliderState) (st : ℚ) : SliderState :=
  s.set_value (s.value + st)

/-- Model of `SliderState::decrease` (src/state.rs:327). -/
def SliderState.decrease (s : SliderState) (st : ℚ) : SliderState :=
  s.set_value (s.value - st)

/-- Model of `SliderState::step_up` (src/state.rs:306). -/
def SliderState.step_up (s : SliderState) : SliderState :=
  s.increase s.step

/-- Model of `SliderState::step_down` (src/state.rs:345). -/
def SliderState.step_down (s : SliderState) : SliderState :=
  s.decrease s.step

/-- Model of `SliderState::set_step` (src/state.rs:397): asserts `step > 0`. -/
def SliderState.set_step (s : SliderState) (st : ℚ) : Option SliderState :=
  if 0 < st then some { s with step := st } else none

/-- Model of `SliderState::set_from_position` (src/state.rs:453): no-op when
`length == 0`, else `set_percentage(position / length)`. -/
def SliderState.set_from_position (s : SliderState) (pos len : ℕ) : SliderState :=
  if len = 0 then s else s.set_percentage ((pos : ℚ) / (len : ℚ))

/-- The clamping invariant: the stored value lies within `[min, max]`. -/
def Inv (s : SliderState) : Prop := s.min ≤ s.value ∧ s.value ≤ s.max

/-- States reachable by `new`/`with_step` followed by any sequence of
non-panicking mutating operations. -/
inductive Reachable : SliderState → Prop where
  | of_new (v mn mx : ℚ) (s : SliderState) :
      SliderState.new v mn mx = some s → Reachable s
  | of_with_step (v mn mx st : ℚ) (s : SliderState) :
      SliderState.with_step v mn mx st = some s → Reachable s
  | of_set_value (s : SliderState) (v : ℚ) :
      Reachable s → Reachable (s.set_value v)
  | of_set_percentage (s : SliderState) (p : ℚ) :
      Reachable s → Reachable (s.set_percentage p)
  | of_increase (s : SliderState) (st : ℚ) :
      Reachable s → Reachable (s.increase st)
  | of_decrease (s : SliderState) (st : ℚ) :
      Reachable s → Reachable (s.decrease st)
  | of_step_up (s : SliderState) :
      Reachable s → Reachable s.step_up
  | of_step_down (s : SliderState) :
      Reachable s → Reachable s.step_down
  | of_set_from_position (s : SliderState) (pos len : ℕ) :
      Reachable s → Reachable (s.set_from_position pos len)
  | of_set_min (s : SliderState) (m : ℚ) (t : SliderState) :
      Reachable s → s.set_min m = some t → Reachable t
  | of_set_max (s : SliderState) (m : ℚ) (t : SliderState) :
      Reachable s → s.set_max m = some t → Reachable t
  | of_set_step (s : SliderState) (st : ℚ) (t : SliderState) :
      Reachable s → s.set_step st = some t → Reachable t

lemma rustClamp_mem (x lo hi : ℚ) (h : lo ≤ hi) :
    lo ≤ rustClamp x lo hi ∧ rustClamp x lo hi ≤ hi := by
  unfold rustClamp
  split_ifs with h1 h2
  · exact ⟨le_refl lo, h⟩
  · exact ⟨h, le_refl hi⟩
  · exact ⟨le_of_not_lt h1, le_of_not_lt h2⟩

lemma EPSILON_pos : 0 < EPSILON := by norm_num [EPSILON]

/-! ## Horizontal renderer (src/slider.rs, `Slider::render_horizontal`)

A render call is embedded as the list of buffer writes it performs, in
program order (a later write to the same cell overwrites an earlier one).
Each write records the starting column offset inside the target region,
the kind of glyph written, and the number of display columns it occupies.
Symbol display widths enter as the raw `unicode-width` results (arbitrary
naturals); the code applies `.max(1)` to each (src/slider.rs:513-515). -/

/-- Kind of glyph a single `buf.set_string` call writes: the filled
symbol, the empty symbol, a padding space `" "`, or the handle symbol. -/
inductive Cell where
  | filled
  | empty
  | pad
  | handle
deriving DecidableEq

/-- One buffer write: (column offset from `area.x`, glyph kind, display
width consumed). -/
abbrev Write := ℕ × Cell × ℕ

/-- Model of `filled_columns = (bar_width as f64 * percentage) as usize`
(src/slider.rs:518).  Rust float→usize casts truncate toward zero and
saturate below at 0, which for any `p` is `⌊width·p⌋` pushed to `ℕ`. -/
def fcH (width : ℕ) (p : ℚ) : ℕ := (⌊(width : ℚ) * p⌋).toNat

/-- Model of `filled_rows = (bar_height as f64 * percentage) as usize`
(src/slider.rs:600), same cast semantics as `fcH`. -/
def fcV (height : ℕ) (p : ℚ) : ℕ := (⌊(height : ℚ) * p⌋).toNat

/-- Symbol width picked at column `col` of the fill loop
(src/slider.rs:529-533): filled width while `col < filled_columns`,
else empty width. -/
def symW (fw ew fc col : ℕ) : ℕ := if col < fc then fw else ew

/-- Glyph kind picked at column `col` of the fill loop. -/
def symCell (fc col : ℕ) : Cell := if col < fc then Cell.filled else Cell.empty

/-- The padding loop (src/slider.rs:536-542): when the next symbol would
overshoot the remaining budget, write one space per remaining column. -/
def padWrites : ℕ → ℕ → List Write
  | _, 0 => []
  | c, n + 1 => (c, Cell.pad, 1) :: padWrites (c + 1) n

/-- The fill loop (src/slider.rs:525-548): `while col < bar_width`, pick
the symbol for the current column; if its width exceeds the remaining
columns, space-pad the rest and stop, else write it and advance by its
width.  `fuel` bounds the iteration count; since every iteration advances
`col` by at least 1 when the widths are ≥ 1, `fuel = width` is exact. -/
def fillLoop (fw ew fc width : ℕ) : ℕ → ℕ → List Write
  | _, 0 => []
  | col, fuel + 1 =>
    if col < width then
      if width - col < symW fw ew fc col then
        padWrites col (width - col)
      else
        (col, symCell fc col, symW fw ew fc col) ::
          fillLoop fw ew fc width (col + symW fw ew fc col) fuel
    else []

/-- The fill pass of `render_horizontal`, with the `.max(1)` width
normalization of src/slider.rs:513-514 applied to the raw symbol widths. -/
def hFillWrites (fwRaw ewRaw fc width : ℕ) : List Write :=
  fillLoop (max fwRaw 1) (max ewRaw 1) fc width 0 width

/-- The handle-position walk (src/slider.rs:558-572):
`while accumulated < filled_columns && accumulated < bar_width`, pick the
symbol width the same way as the fill loop, stop before overshooting
`filled_columns`, else accumulate.  Returns the final accumulated offset
(`handle_x - area.x`).  `fuel = fc` is exact for widths ≥ 1. -/
def handleLoop (fw ew fc width : ℕ) : ℕ → ℕ → ℕ
  | acc, 0 => acc
  | acc, fuel + 1 =>
    if acc < fc ∧ acc < width then
      if fc < acc + symW fw ew fc acc then acc
      else handleLoop fw ew fc width (acc + symW fw ew fc acc) fuel
    else acc

/-- The handle offset computed by `render_horizontal`, from the raw symbol
widths. -/
def handleOffset (fwRaw ewRaw fc width : ℕ) : ℕ :=
  handleLoop (max fwRaw 1) (max ewRaw 1) fc width 0 fc

/-- The handle write of `render_horizontal` (src/slider.rs:574-582): the
handle is written only when `handle_x + handle_width as u16 <=
area.x + area.width` (the check `handle_x >= area.x` is always true in
offset form).  The cast `handle_width as u16` truncates the display width
modulo 2¹⁶ in every build profile, and the `u16` sum wraps modulo 2¹⁶
(release semantics), so the fit check uses the wrapped value while the
glyph written still occupies its true display width. -/
def hHandleWrites (fwRaw ewRaw hwRaw fc width : ℕ) : List Write :=
  if (handleOffset fwRaw ewRaw fc width + (max hwRaw 1) % 65536) % 65536
      ≤ width then
    [(handleOffset fwRaw ewRaw fc width, Cell.handle, max hwRaw 1)]
  else []

/-- Model of `Slider::render_horizontal` (src/slider.rs:503-583) as the list of
writes it performs: nothing when `width < 1`; otherwise the fill pass
followed (in program order, hence overwriting) by the handle write when
`show_handle` is set. -/
def render_horizontal (show_handle : Bool) (fwRaw ewRaw hwRaw : ℕ) (p : ℚ)
    (width : ℕ) : List Write :=
  if width < 1 then []
  else
    hFillWrites fwRaw ewRaw (fcH width p) width ++
      (if show_handle then hHandleWrites fwRaw ewRaw hwRaw (fcH width p) width
       else [])

/-- Checks that a write list starts at column `c` and is gapless: each
write begins exactly where the previous one ended and has width ≥ 1. -/
def contiguousFromB : ℕ → List Write → Bool
  | _, [] => true
  | c, (pos, _, sw) :: rest =>
    pos == c && Nat.ble 1 sw && contiguousFromB (c + sw) rest

/-- Total number of display columns consumed by a write list. -/
def totalW (ws : List Write) : ℕ := (ws.map fun w => w.2.2).sum

/-! ## Label/value placement (src/slider.rs, horizontal path)

Strings enter only through their display widths, so a label is embedded as
`Option ℕ` (its `unicode-width`) and the formatted value text as its width
`vw`; `area` enters as `ax`/`aw` (`area.x`, `area.width`).  `u16`
arithmetic with `saturating_sub` becomes `ℕ` arithmetic. -/

lemma contiguousFromB_cons (c pos sw : ℕ) (cl : Cell) (rest : List Write) :
    contiguousFromB c ((pos, cl, sw) :: rest)
      = (pos == c && Nat.ble 1 sw && contiguousFromB (c + sw) rest) := rfl

lemma totalW_cons (pos sw : ℕ) (cl : Cell) (rest : List Write) :
    totalW ((pos, cl, sw) :: rest) = sw + totalW rest := by
  simp [totalW]

lemma padWrites_spec : ∀ n c : ℕ,
    contiguousFromB c (padWrites c n) = true ∧ totalW (padWrites c n) = n := by
  intro n
  induction n with
  | zero => intro c; simp [padWrites, contiguousFromB, totalW]
  | succ k ih =>
    intro c
    rw [padWrites, contiguousFromB_cons, totalW_cons]
    refine ⟨?_, ?_⟩
    · simp [(ih (c + 1)).1, Nat.ble]
    · rw [(ih (c + 1)).2]; omega

lemma padWrites_cells : ∀ n c : ℕ, ∀ w ∈ padWrites c n, w.2.1 = Cell.pad := by
  intro n
  induction n with
  | zero => intro c w hw; simp [padWrites] at hw
  | succ k ih =>
    intro c w hw
    rw [padWrites, List.mem_cons] at hw
    rcases hw with hw | hw
    · simp [hw]
    · exact ih (c + 1) w hw

lemma symW_ge_one (fw ew fc col : ℕ) (hfw : 1 ≤ fw) (hew : 1 ≤ ew) :
    1 ≤ symW fw ew fc col := by
  unfold symW; split <;> assumption

lemma fillLoop_spec (fw ew fc width : ℕ) (hfw : 1 ≤ fw) (hew : 1 ≤ ew) :
    ∀ fuel col : ℕ, width - col ≤ fuel →
      contiguousFromB col (fillLoop fw ew fc width col fuel) = true ∧
      totalW (fillLoop fw ew fc width col fuel) = width - col := by
  intro fuel
  induction fuel with
  | zero =>
    intro col h
    refine ⟨rfl, ?_⟩
    simp only [fillLoop, totalW, List.map_nil, List.sum_nil]
    omega
  | succ n ih =>
    intro col h
    by_cases hc : col < width
    · rw [fillLoop, if_pos hc]
      have hsw := symW_ge_one fw ew fc col hfw hew
      by_cases hrem : width - col < symW fw ew fc col
      · rw [if_pos hrem]
        exact padWrites_spec (width - col) col
      · rw [if_neg hrem, contiguousFromB_cons, totalW_cons]
        have hfuel : width - (col + symW fw ew fc col) ≤ n := by omega
        have hrest := ih (col + symW fw ew fc col) hfuel
        refine ⟨?_, ?_⟩
        · simp [hrest.1, Nat.ble_eq, hsw]
        · rw [hrest.2]; omega
    · rw [fillLoop, if_neg hc]
      refine ⟨rfl, ?_⟩
      simp only [totalW, List.map_nil, List.sum_nil]
      omega

lemma fillLoop_cells_empty (fw ew width : ℕ) :
    ∀ fuel col : ℕ, ∀ w ∈ fillLoop fw ew 0 width col fuel,
      w.2.1 = Cell.empty ∨ w.2.1 = Cell.pad := by
  intro fuel
  induction fuel with
  | zero => intro col w hw; simp [fillLoop] at hw
  | succ n ih =>
    intro col w hw
    rw [fillLoop] at hw
    by_cases hc : col < width
    · rw [if_pos hc] at hw
      by_cases hrem : width - col < symW fw ew 0 col
      · rw [if_pos hrem] at hw
        exact Or.inr (padWrites_cells (width - col) col w hw)
      · rw [if_neg hrem, List.mem_cons] at hw
        rcases hw with hw | hw
        · left; simp [hw, symCell]
        · exact ih (col + symW fw ew 0 col) w hw
    · rw [if_neg hc] at hw; simp at hw

lemma fillLoop_cells_filled (fw ew fc width : ℕ) (hfc : width ≤ fc) :
    ∀ fuel col : ℕ, ∀ w ∈ fillLoop fw ew fc width col fuel,
      w.2.1 = Cell.filled ∨ w.2.1 = Cell.pad := by
  intro fuel
  induction fuel with
  | zero => intro col w hw; simp [fillLoop] at hw
  | succ n ih =>
    intro col w hw
    rw [fillLoop] at hw
    by_cases hc : col < width
    · rw [if_pos hc] at hw
      by_cases hrem : width - col < symW fw ew fc col
      · rw [if_pos hrem] at hw
        exact Or.inr (padWrites_cells (width - col) col w hw)
      · rw [if_neg hrem, List.mem_cons] at hw
        rcases hw with hw | hw
        · left
          have hcol : col < fc := lt_of_lt_of_le hc hfc
          simp [hw, symCell, hcol]
        · exact ih (col + symW fw ew fc col) w hw
    · rw [if_neg hc] at hw; simp at hw

lemma handleLoop_spec (fw ew fc width : ℕ) (hfw : 1 ≤ fw) (hfc : fc ≤ width) :
    ∀ fuel acc : ℕ, fw ∣ acc → acc ≤ fc → fc - acc ≤ fuel →
      handleLoop fw ew fc width acc fuel = fc - fc % fw := by
  intro fuel
  induction fuel with
  | zero =>
    intro acc hdvd hle h
    have hacc : acc = fc := by omega
    subst hacc
    obtain ⟨k, hk⟩ := hdvd
    rw [handleLoop, hk, Nat.mul_mod_right]
    omega
  | succ n ih =>
    intro acc hdvd hle h
    rw [handleLoop]
    by_cases hcond : acc < fc ∧ acc < width
    · rw [if_pos hcond]
      have hsw : symW fw ew fc acc = fw := by simp [symW, hcond.1]
      rw [hsw]
      by_cases hover : fc < acc + fw
      · rw [if_pos hover]
        obtain ⟨k, hk⟩ := hdvd
        have hcomm : k * fw = fw * k := Nat.mul_comm k fw
        have hlt : acc < fc := hcond.1
        have hdiv : fc / fw = k := by
          apply Nat.div_eq_of_lt_le
          · omega
          · rw [Nat.succ_mul]; omega
        have hmod := Nat.div_add_mod fc fw
        rw [hdiv] at hmod
        omega
      · rw [if_neg hover]
        exact ih (acc + fw) (Dvd.dvd.add hdvd dvd_rfl) (by omega) (by omega)
    · rw [if_neg hcond]
      have hacc : acc = fc := by omega
      subst hacc
      obtain ⟨k, hk⟩ := hdvd
      rw [hk, Nat.mul_mod_right]
      omega

lemma fcH_le (width : ℕ) (p : ℚ) (hp1 : p ≤ 1) : fcH width p ≤ width := by
  unfold fcH
  rw [Int.toNat_le]
  calc ⌊(width : ℚ) * p⌋ ≤ ⌊(width : ℚ)⌋ := by
        apply Int.floor_le_floor
        exact mul_le_of_le_one_right (by positivity) hp1
    _ = (width : ℤ) := Int.floor_natCast width

lemma fcH_zero (width : ℕ) : fcH width 0 = 0 := by
  simp [fcH]

lemma fcH_one (width : ℕ) : fcH width 1 = width := by
  simp [fcH]

lemma handleOffset_eq (fwRaw ewRaw fc width : ℕ) (hfc : fc ≤ width) :
    handleOffset fwRaw ewRaw fc width = fc - fc % max fwRaw 1 :=
  handleLoop_spec (max fwRaw 1) (max ewRaw 1) fc width (le_max_right fwRaw 1)
    hfc fc 0 (dvd_zero _) (Nat.zero_le fc) (by omega)

lemma render_horizontal_false_eq (fwRaw ewRaw hwRaw : ℕ) (p : ℚ) (width : ℕ)
    (h1 : 1 ≤ width) :
    render_horizontal false fwRaw ewRaw hwRaw p width
      = hFillWrites fwRaw ewRaw (fcH width p) width := by
  have hnot : ¬ width < 1 := by omega
  simp [render_horizontal, hnot]

/-! ## Claim theorems: the horizontal renderer -/

/-- C1: Exact-width fill.  For every region width ≥ 1, every percentage in
`[0,1]` and arbitrary filled/empty symbol widths (normalized to at least
1), the fill pass of the horizontal renderer emits a gapless sequence of
writes starting at column 0 whose display widths (glyphs plus padding
spaces) sum to exactly `width`; hence no column is left unwritten and no
write extends past the right edge of the region. -/
theorem exact_width_fill (fwRaw ewRaw hwRaw : ℕ) (p : ℚ) (width : ℕ)
    (h1 : 1 ≤ width) (hp0 : 0 ≤ p) (hp1 : p ≤ 1) :
    contiguousFromB 0 (render_horizontal false fwRaw ewRaw hwRaw p width) = true ∧
    totalW (render_horizontal false fwRaw ewRaw hwRaw p width) = width := by
  rw [render_horizontal_false_eq fwRaw ewRaw hwRaw p width h1]
  have h := fillLoop_spec (max fwRaw 1) (max ewRaw 1) (fcH width p) width
    (le_max_right fwRaw 1) (le_max_right ewRaw 1) width 0 (by omega)
  refine ⟨h.1, ?_⟩
  rw [hFillWrites, h.2]
  omega

/-- C1 witness: the exact-width fill property instantiated at width 10,
single-column symbols, percentage 1/2. -/
theorem exact_width_fill_instance :
    (1 ≤ 10) ∧
    contiguousFromB 0 (render_horizontal false 1 1 1 (1/2) 10) = true ∧
    totalW (render_horizontal false 1 1 1 (1/2) 10) = 10 :=
  ⟨by omega,
   exact_width_fill 1 1 1 (1/2) 10 (by omega) (by norm_num) (by norm_num)⟩

/-- C2 counterexample: a handle symbol of display width 65536 in a
width-3 region at percentage 0: the `as u16` cast at src/slider.rs:575
wraps the width to 0, the fit check passes, and the handle is drawn —
although `handle_x + handle_width` (the true display width, 65536) far
exceeds the right edge of the region, where the claim says it is silently
skipped. -/
theorem handle_placement_cex :
    (0, Cell.handle, 65536) ∈ render_horizontal true 1 1 65536 0 3 ∧
    ¬ (0 + max 65536 1 ≤ 3) := by
  constructor
  · have h : render_horizontal true 1 1 65536 0 3
        = hFillWrites 1 1 0 3 ++ hHandleWrites 1 1 65536 0 3 := by
      simp [render_horizontal, fcH_zero]
    rw [h]
    decide
  · decide

/-- C2 amended: with `show_handle` on, the horizontal renderer appends
(after all fill writes, hence overwriting) a single handle write at the
offset reached by accumulating whole filled-symbol widths, which is the
last whole-symbol boundary at or before `filled_columns` (a multiple of
the filled width, at most `filled_columns`, and within one symbol of it).
The handle is drawn only when `offset + (handle_width as u16) ≤ width`,
computed in wrapping `u16` arithmetic; for handle widths below 2¹⁶ this is
exactly the fit check `handle_x + handle_width ≤ right edge`, but for
wider handles the wrapped check can pass and the handle is drawn even
though it does not fit.  Otherwise no handle write is made. -/
theorem handle_placement (fwRaw ewRaw hwRaw : ℕ) (p : ℚ) (width : ℕ)
    (h1 : 1 ≤ width) (hp1 : p ≤ 1) :
    render_horizontal true fwRaw ewRaw hwRaw p width
      = render_horizontal false fwRaw ewRaw hwRaw p width ++
        (if (fcH width p - fcH width p % max fwRaw 1
              + (max hwRaw 1) % 65536) % 65536 ≤ width then
          [(fcH width p - fcH width p % max fwRaw 1, Cell.handle, max hwRaw 1)]
         else []) ∧
    max fwRaw 1 ∣ (fcH width p - fcH width p % max fwRaw 1) ∧
    fcH width p - fcH width p % max fwRaw 1 ≤ fcH width p ∧
    fcH width p < fcH width p - fcH width p % max fwRaw 1 + max fwRaw 1 := by
  have hnot : ¬ width < 1 := by omega
  have hfc : fcH width p ≤ width := fcH_le width p hp1
  have hoff := handleOffset_eq fwRaw ewRaw (fcH width p) width hfc
  have hmod := Nat.div_add_mod (fcH width p) (max fwRaw 1)
  have hm1 : fcH width p % max fwRaw 1 < max fwRaw 1 :=
    Nat.mod_lt _ (by omega)
  have hm2 : fcH width p % max fwRaw 1 ≤ fcH width p := Nat.mod_le _ _
  refine ⟨?_, ⟨fcH width p / max fwRaw 1, by omega⟩, Nat.sub_le _ _, by omega⟩
  simp [render_horizontal, hnot, hHandleWrites, hoff]

/-- C2 witness: width 7, filled symbol of display width 2, percentage 1/2
(`filled_columns = 3`): the handle lands at offset 2 and is drawn. -/
theorem handle_placement_instance :
    render_horizontal true 2 1 1 (1/2) 7
      = render_horizontal false 2 1 1 (1/2) 7 ++ [(2, Cell.handle, 1)] := by
  have h := (handle_placement 2 1 1 (1/2) 7 (by omega) (by norm_num)).1
  have hfc : fcH 7 (1/2) = 3 := by
    unfold fcH
    norm_num
    rfl
  rw [h, hfc]
  congr 1

/-- C6: Monotonicity.  For fixed width and height, the maps from
percentage to `filled_columns` and to `filled_rows` are monotone
non-decreasing on `[0,1]`. -/
theorem filled_columns_monotone (w h : ℕ) (p q : ℚ)
    (hp0 : 0 ≤ p) (hpq : p ≤ q) (hq1 : q ≤ 1) :
    fcH w p ≤ fcH w q ∧ fcV h p ≤ fcV h q := by
  constructor
  · exact Int.toNat_le_toNat (Int.floor_le_floor
      (mul_le_mul_of_nonneg_left hpq (by positivity)))
  · exact Int.toNat_le_toNat (Int.floor_le_floor
      (mul_le_mul_of_nonneg_left hpq (by positivity)))

/-- C6 witness: monotonicity instantiated at width 10, height 5,
percentages 1/4 ≤ 1/2. -/
theorem filled_columns_monotone_instance :
    fcH 10 (1/4) ≤ fcH 10 (1/2) ∧ fcV 5 (1/4) ≤ fcV 5 (1/2) :=
  filled_columns_monotone 10 5 (1/4) (1/2) (by norm_num) (by norm_num)
    (by norm_num)

/-- C3 counterexample: at percentage 0, width 3, with an empty symbol of
display width 2, the fill pass writes a padding space (not the empty
symbol) at column 2 — so not every bar cell is rendered with the empty
symbol. -/
theorem boundary_behavior_cex :
    (2, Cell.pad, 1) ∈ render_horizontal false 1 2 1 0 3 ∧
    Cell.pad ≠ Cell.empty := by
  refine ⟨?_, by decide⟩
  rw [render_horizontal_false_eq 1 2 1 0 3 (by omega), hFillWrites, fcH_zero]
  decide

/-- C3 amended: percentage 0 yields `filled_columns = 0`, every bar cell
rendered with the empty symbol except trailing space padding when the
width of the empty symbol does not divide the width, and a handle offset
of 0, the handle being drawn exactly when its `as u16`-truncated width
fits in the region; percentage 1 yields `filled_columns = width`, every
bar cell rendered with the filled symbol except trailing space padding,
and a handle offset of `width - width % filled_width`, the handle drawn
exactly when the wrapping-`u16` fit check `offset + (handle_width as
u16) ≤ width` passes, otherwise omitted. -/
theorem boundary_behavior_amended (fwRaw ewRaw hwRaw width : ℕ)
    (h1 : 1 ≤ width) :
    fcH width 0 = 0 ∧ fcH width 1 = width ∧
    (∀ w ∈ render_horizontal false fwRaw ewRaw hwRaw 0 width,
        w.2.1 = Cell.empty ∨ w.2.1 = Cell.pad) ∧
    (∀ w ∈ render_horizontal false fwRaw ewRaw hwRaw 1 width,
        w.2.1 = Cell.filled ∨ w.2.1 = Cell.pad) ∧
    handleOffset fwRaw ewRaw (fcH width 0) width = 0 ∧
    handleOffset fwRaw ewRaw (fcH width 1) width
      = width - width % max fwRaw 1 ∧
    hHandleWrites fwRaw ewRaw hwRaw (fcH width 0) width
      = (if (max hwRaw 1) % 65536 ≤ width then
          [(0, Cell.handle, max hwRaw 1)]
         else []) ∧
    hHandleWrites fwRaw ewRaw hwRaw (fcH width 1) width
      = (if (width - width % max fwRaw 1 + (max hwRaw 1) % 65536) % 65536
            ≤ width then
          [(width - width % max fwRaw 1, Cell.handle, max hwRaw 1)]
         else []) := by
  have hoff0 : handleOffset fwRaw ewRaw (fcH width 0) width = 0 := by
    rw [fcH_zero]
    rw [handleOffset_eq fwRaw ewRaw 0 width (Nat.zero_le width)]
    simp
  have hoff1 : handleOffset fwRaw ewRaw (fcH width 1) width
      = width - width % max fwRaw 1 := by
    rw [fcH_one]
    exact handleOffset_eq fwRaw ewRaw width width (le_refl width)
  refine ⟨fcH_zero width, fcH_one width, ?_, ?_, hoff0, hoff1, ?_, ?_⟩
  · intro w hw
    rw [render_horizontal_false_eq fwRaw ewRaw hwRaw 0 width h1,
      hFillWrites, fcH_zero] at hw
    exact fillLoop_cells_empty (max fwRaw 1) (max ewRaw 1) width width 0 w hw
  · intro w hw
    rw [render_horizontal_false_eq fwRaw ewRaw hwRaw 1 width h1,
      hFillWrites, fcH_one] at hw
    exact fillLoop_cells_filled (max fwRaw 1) (max ewRaw 1) width width
      (le_refl width) width 0 w hw
  · rw [hHandleWrites, hoff0]
    have heq : (0 + (max hwRaw 1) % 65536) % 65536 = (max hwRaw 1) % 65536 := by
      omega
    rw [heq]
  · rw [hHandleWrites, hoff1]

/-- C3 witness: the amended boundary behavior at width 3 with
single-column symbols. -/
theorem boundary_behavior_instance :
    (1 ≤ 3) ∧ fcH 3 0 = 0 ∧ fcH 3 1 = 3 :=
  ⟨by omega, (boundary_behavior_amended 1 1 1 3 (by omega)).1,
    (boundary_behavior_amended 1 1 1 3 (by omega)).2.1⟩

/-! ## Claim theorems: the state model -/

lemma Inv_set_value (s : SliderState) (v : ℚ) (h : Inv s) :
    Inv (s.set_value v) := by
  have hle : s.min ≤ s.max := le_trans h.1 h.2
  exact rustClamp_mem v s.min s.max hle

lemma Inv_new (v mn mx : ℚ) (s : SliderState)
    (h : SliderState.new v mn mx = some s) : Inv s := by
  unfold SliderState.new at h
  split at h
  · rename_i hlt
    obtain rfl := (Option.some.inj h).symm
    exact rustClamp_mem v mn mx (le_of_lt hlt)
  · exact absurd h (by simp)

lemma Inv_with_step (v mn mx st : ℚ) (s : SliderState)
    (h : SliderState.with_step v mn mx st = some s) : Inv s := by
  unfold SliderState.with_step at h
  split at h
  · rename_i hlt
    split at h
    · obtain rfl := (Option.some.inj h).symm
      exact rustClamp_mem v mn mx (le_of_lt hlt)
    · exact absurd h (by simp)
  · exact absurd h (by simp)

lemma Inv_set_min (s : SliderState) (m : ℚ) (t : SliderState)
    (h : s.set_min m = some t) : Inv t := by
  unfold SliderState.set_min at h
  split at h
  · rename_i hlt
    obtain rfl := (Option.some.inj h).symm
    exact rustClamp_mem s.value m s.max (le_of_lt hlt)
  · exact absurd h (by simp)

lemma Inv_set_max (s : SliderState) (m : ℚ) (t : SliderState)
    (h : s.set_max m = some t) : Inv t := by
  unfold SliderState.set_max at h
  split at h
  · rename_i hlt
    obtain rfl := (Option.some.inj h).symm
    exact rustClamp_mem s.value s.min m (le_of_lt hlt)
  · exact absurd h (by simp)

/-- C4: Clamping invariant.  A state built by `new` satisfies
`value ∈ [min, max]` (so does one built by `with_step`), and the invariant
is preserved by every non-panicking mutating operation: `set_value`,
`set_percentage`, `increase`, `decrease`, `step_up`, `step_down`,
`set_min`, `set_max` and `set_step`. -/
theorem clamping_invariant :
    (∀ (v mn mx : ℚ) (s : SliderState),
        SliderState.new v mn mx = some s → Inv s) ∧
    (∀ (v mn mx st : ℚ) (s : SliderState),
        SliderState.with_step v mn mx st = some s → Inv s) ∧
    (∀ (s : SliderState) (v : ℚ), Inv s → Inv (s.set_value v)) ∧
    (∀ (s : SliderState) (p : ℚ), Inv s → Inv (s.set_percentage p)) ∧
    (∀ (s : SliderState) (d : ℚ), Inv s → Inv (s.increase d)) ∧
    (∀ (s : SliderState) (d : ℚ), Inv s → Inv (s.decrease d)) ∧
    (∀ s : SliderState, Inv s → Inv s.step_up) ∧
    (∀ s : SliderState, Inv s → Inv s.step_down) ∧
    (∀ (s : SliderState) (m : ℚ) (t : SliderState),
        s.set_min m = some t → Inv t) ∧
    (∀ (s : SliderState) (m : ℚ) (t : SliderState),
        s.set_max m = some t → Inv t) ∧
    (∀ (s : SliderState) (st : ℚ) (t : SliderState),
        Inv s → s.set_step st = some t → Inv t) := by
  refine ⟨Inv_new, Inv_with_step, Inv_set_value,
    fun s p h => Inv_set_value s _ h,
    fun s d h => Inv_set_value s _ h,
    fun s d h => Inv_set_value s _ h,
    fun s h => Inv_set_value s _ h,
    fun s h => Inv_set_value s _ h,
    Inv_set_min, Inv_set_max, ?_⟩
  intro s st t h hstep
  unfold SliderState.set_step at hstep
  split at hstep
  · obtain rfl := (Option.some.inj hstep).symm
    exact h
  · exact absurd hstep (by simp)

/-- C4 witness: `new(150, 0, 100)` clamps to value 100, which satisfies
the invariant. -/
theorem clamping_invariant_instance :
    SliderState.new 150 0 100 = some (SliderState.mk 100 0 100 1) ∧
    Inv (SliderState.mk 100 0 100 1) :=
  ⟨by decide,
   clamping_invariant.1 150 0 100 (SliderState.mk 100 0 100 1) (by decide)⟩

/-- C5 counterexample: with `min = 0 < max = 2⁻⁵³` (accepted by `new`,
since `min < max`), after `set_percentage(9/10)` the `percentage()` call
hits the degenerate-range guard (`max - min < f64::EPSILON = 2⁻⁵²`) and
returns 0, which is not within epsilon of 9/10 — refuting the round-trip
for a state with `min < max`. -/
theorem percentage_roundtrip_cex :
    SliderState.new 0 0 (1/9007199254740992)
      = some (SliderState.mk 0 0 (1/9007199254740992) 1) ∧
    (0 : ℚ) < 1/9007199254740992 ∧
    ¬ |((SliderState.mk 0 0 (1/9007199254740992) 1).set_percentage
          (9/10)).percentage - 9/10| < EPSILON := by
  refine ⟨?_, by norm_num, ?_⟩
  · unfold SliderState.new rustClamp
    norm_num
  · have habs : |(1:ℚ)/9007199254740992| < 1/4503599627370496 := by
      rw [abs_of_pos] <;> norm_num
    unfold SliderState.percentage SliderState.set_percentage
      SliderState.set_value rustClamp
    norm_num [EPSILON, habs]
    rw [abs_of_pos] <;> norm_num

/-- C5 amended: after `set_percentage(p)`, `percentage()` returns 0
whenever `|max − min| < f64::EPSILON` — states `min < max` permits, so the
round-trip fails on them for every `p` away from 0 — and at a degenerate
range (`max = min`) `percentage()` is always 0.  No stronger accuracy
statement survives: `f64` rounding of `min + (max − min)·p` at
src/state.rs:268 also defeats the round-trip for ranges at or above
epsilon (`min = 2⁵³, max = 2⁵³ + 2, p = 1/4` yields percentage 0), and a
correct accuracy bound would require a floating-point model.  This theorem
is insensitive to that rounding: `set_percentage` leaves `min` and `max`
untouched whatever value it stores, so the guard fires regardless. -/
theorem percentage_roundtrip_amended (s : SliderState) (p : ℚ)
    (hdeg : |s.max - s.min| < EPSILON) :
    (s.set_percentage p).percentage = 0 ∧
    (∀ t : SliderState, t.max = t.min → t.percentage = 0) := by
  have heps := EPSILON_pos
  constructor
  · simp [SliderState.set_percentage, SliderState.set_value,
      SliderState.percentage, hdeg]
  · intro t ht
    unfold SliderState.percentage
    rw [ht]
    simp [heps]

/-- C5 witness: the amended statement at the sub-epsilon range
`[0, 2⁻⁵³]` with `p = 1/3`. -/
theorem percentage_roundtrip_instance :
    |(SliderState.mk 0 0 (1/9007199254740992) 1).max
        - (SliderState.mk 0 0 (1/9007199254740992) 1).min| < EPSILON ∧
    ((SliderState.mk 0 0 (1/9007199254740992) 1).set_percentage
        (1/3)).percentage = 0 := by
  have habs : |(SliderState.mk 0 0 (1/9007199254740992) 1).max
      - (SliderState.mk 0 0 (1/9007199254740992) 1).min| < EPSILON := by
    show |(1/9007199254740992 : ℚ) - 0| < EPSILON
    rw [sub_zero, abs_of_pos] <;> norm_num [EPSILON]
  exact ⟨habs,
    (percentage_roundtrip_amended (SliderState.mk 0 0 (1/9007199254740992) 1)
      (1/3) habs).1⟩

/-- C7: `percentage()` returns 0 when `|max - min| < f64::EPSILON`, and
otherwise returns `(value - min) / (max - min)` with no further clamping
applied to the result (the quotient is returned as-is even when `value`
lies outside `[min, max]`). -/
theorem percentage_branches (s : SliderState) :
    (|s.max - s.min| < EPSILON → s.percentage = 0) ∧
    (¬ |s.max - s.min| < EPSILON →
        s.percentage = (s.value - s.min) / (s.max - s.min)) := by
  constructor <;> intro h <;> simp [SliderState.percentage, h]

/-- C7 witness: a state with `value = 2` outside `[0, 1]` gets percentage
2, exhibiting the unclamped quotient branch. -/
theorem percentage_branches_instance :
    ¬ |(SliderState.mk 2 0 1 1).max - (SliderState.mk 2 0 1 1).min| < EPSILON ∧
    (SliderState.mk 2 0 1 1).percentage = 2 := by
  have hnd : ¬ |(SliderState.mk 2 0 1 1).max
      - (SliderState.mk 2 0 1 1).min| < EPSILON := by
    norm_num [EPSILON]
  refine ⟨hnd, ?_⟩
  have h := (percentage_branches (SliderState.mk 2 0 1 1)).2 hnd
  rw [h]
  norm_num

/-- C8: `new` fails exactly when `min ≥ max`; `with_step` fails exactly
when `min ≥ max` or `step ≤ 0`; `set_step` fails exactly when
`step ≤ 0`.  On success, `new`/`with_step` store the clamped value with
step 1 resp. the given step, and `set_step` assigns only the step. -/
theorem construction_errors :
    (∀ v mn mx : ℚ, SliderState.new v mn mx = none ↔ mx ≤ mn) ∧
    (∀ v mn mx st : ℚ,
        SliderState.with_step v mn mx st = none ↔ (mx ≤ mn ∨ st ≤ 0)) ∧
    (∀ (s : SliderState) (st : ℚ), s.set_step st = none ↔ st ≤ 0) ∧
    (∀ (v mn mx : ℚ) (s : SliderState), SliderState.new v mn mx = some s →
        s = SliderState.mk (rustClamp v mn mx) mn mx 1) ∧
    (∀ (v mn mx st : ℚ) (s : SliderState),
        SliderState.with_step v mn mx st = some s →
        s = SliderState.mk (rustClamp v mn mx) mn mx st) ∧
    (∀ (s : SliderState) (st : ℚ) (t : SliderState),
        s.set_step st = some t →
        t = SliderState.mk s.value s.min s.max st) := by
  refine ⟨?_, ?_, ?_, ?_, ?_, ?_⟩
  · intro v mn mx
    unfold SliderState.new
    split_ifs with h
    · simp [not_le.mpr h]
    · simp [not_lt.mp h]
  · intro v mn mx st
    unfold SliderState.with_step
    split_ifs with h1 h2
    · simp [not_le.mpr h1, not_le.mpr h2]
    · simp [not_lt.mp h2]
    · simp [not_lt.mp h1]
  · intro s st
    unfold SliderState.set_step
    split_ifs with h
    · simp [not_le.mpr h]
    · simp [not_lt.mp h]
  · intro v mn mx s h
    unfold SliderState.new at h
    split at h
    · exact (Option.some.inj h).symm
    · exact absurd h (by simp)
  · intro v mn mx st s h
    unfold SliderState.with_step at h
    split at h
    · split at h
      · exact (Option.some.inj h).symm
      · exact absurd h (by simp)
    · exact absurd h (by simp)
  · intro s st t h
    unfold SliderState.set_step at h
    split at h
    · exact (Option.some.inj h).symm
    · exact absurd h (by simp)

/-- C8 witness: equal bounds make `new` fail, and a zero step makes
`with_step` fail. -/
theorem construction_errors_instance :
    SliderState.new 5 3 3 = none ∧
    SliderState.with_step 5 0 100 0 = none :=
  ⟨(construction_errors.1 5 3 3).mpr (le_refl 3),
   (construction_errors.2.1 5 0 100 0).mpr (Or.inr (le_refl 0))⟩

lemma reachable_bounds (s : SliderState) (h : Reachable s) :
    s.min < s.max ∧ Inv s := by
  induction h with
  | of_new v mn mx t ht =>
    unfold SliderState.new at ht
    split at ht
    · rename_i hlt
      obtain rfl := (Option.some.inj ht).symm
      exact ⟨hlt, rustClamp_mem v mn mx (le_of_lt hlt)⟩
    · exact absurd ht (by simp)
  | of_with_step v mn mx st t ht =>
    unfold SliderState.with_step at ht
    split at ht
    · rename_i hlt
      split at ht
      · obtain rfl := (Option.some.inj ht).symm
        exact ⟨hlt, rustClamp_mem v mn mx (le_of_lt hlt)⟩
      · exact absurd ht (by simp)
    · exact absurd ht (by simp)
  | of_set_value s v hs ih => exact ⟨ih.1, Inv_set_value s v ih.2⟩
  | of_set_percentage s p hs ih => exact ⟨ih.1, Inv_set_value s _ ih.2⟩
  | of_increase s st hs ih => exact ⟨ih.1, Inv_set_value s _ ih.2⟩
  | of_decrease s st hs ih => exact ⟨ih.1, Inv_set_value s _ ih.2⟩
  | of_step_up s hs ih => exact ⟨ih.1, Inv_set_value s _ ih.2⟩
  | of_step_down s hs ih => exact ⟨ih.1, Inv_set_value s _ ih.2⟩
  | of_set_from_position s pos len hs ih =>
    unfold SliderState.set_from_position
    split
    · exact ih
    · exact ⟨ih.1, Inv_set_value s _ ih.2⟩
  | of_set_min s m t hs hop ih =>
    unfold SliderState.set_min at hop
    split at hop
    · rename_i hlt
      obtain rfl := (Option.some.inj hop).symm
      exact ⟨hlt, rustClamp_mem s.value m s.max (le_of_lt hlt)⟩
    · exact absurd hop (by simp)
  | of_set_max s m t hs hop ih =>
    unfold SliderState.set_max at hop
    split at hop
    · rename_i hlt
      obtain rfl := (Option.some.inj hop).symm
      exact ⟨hlt, rustClamp_mem s.value s.min m (le_of_lt hlt)⟩
    · exact absurd hop (by simp)
  | of_set_step s st t hs hop ih =>
    unfold SliderState.set_step at hop
    split at hop
    · obtain rfl := (Option.some.inj hop).symm
      exact ih
    · exact absurd hop (by simp)

/-- C10 counterexample: `new(2⁻⁵⁴, 0, 2⁻⁵³)` is accepted (so the state is
reachable and satisfies `min < max`), yet `percentage()` takes the
degenerate-range branch — it returns 0 where the quotient formula gives
1/2 — refuting the claim that the branch is unreachable for reachable
states. -/
theorem reachable_degenerate_cex :
    Reachable (SliderState.mk (1/18014398509481984) 0
      (1/9007199254740992) 1) ∧
    (SliderState.mk (1/18014398509481984) 0 (1/9007199254740992) 1).min
      < (SliderState.mk (1/18014398509481984) 0
          (1/9007199254740992) 1).max ∧
    (SliderState.mk (1/18014398509481984) 0
      (1/9007199254740992) 1).percentage = 0 ∧
    ((SliderState.mk (1/18014398509481984) 0
          (1/9007199254740992) 1).value
        - (SliderState.mk (1/18014398509481984) 0
            (1/9007199254740992) 1).min)
      / ((SliderState.mk (1/18014398509481984) 0
            (1/9007199254740992) 1).max
        - (SliderState.mk (1/18014398509481984) 0
            (1/9007199254740992) 1).min) = 1/2 := by
  refine ⟨Reachable.of_new (1/18014398509481984) 0 (1/9007199254740992)
    _ ?_, by norm_num, ?_, by norm_num⟩
  · unfold SliderState.new rustClamp
    norm_num
  · have habs : |(1:ℚ)/9007199254740992| < 1/4503599627370496 := by
      rw [abs_of_pos] <;> norm_num
    unfold SliderState.percentage
    norm_num [EPSILON, habs]

/-- C10 amended: every state reachable through `new`/`with_step` and
non-panicking operations satisfies `min < max` strictly and the clamping
invariant, and its `percentage()` always lies in `[0, 1]`; however the
degenerate-range branch of `percentage()` remains reachable for such
states whenever `max - min < f64::EPSILON`. -/
theorem reachable_range_invariant (s : SliderState) (h : Reachable s) :
    s.min < s.max ∧ Inv s ∧ 0 ≤ s.percentage ∧ s.percentage ≤ 1 := by
  obtain ⟨hlt, hinv⟩ := reachable_bounds s h
  refine ⟨hlt, hinv, ?_, ?_⟩
  · unfold SliderState.percentage
    split
    · norm_num
    · exact div_nonneg (by linarith [hinv.1]) (by linarith)
  · unfold SliderState.percentage
    split
    · norm_num
    · exact (div_le_one (by linarith)).mpr (by linarith [hinv.2])

/-- C10 witness: the invariant at the reachable state `new(50, 0, 100)`. -/
theorem reachable_range_invariant_instance :
    (SliderState.mk 50 0 100 1).min < (SliderState.mk 50 0 100 1).max ∧
    Inv (SliderState.mk 50 0 100 1) ∧
    0 ≤ (SliderState.mk 50 0 100 1).percentage ∧
    (SliderState.mk 50 0 100 1).percentage ≤ 1 :=
  reachable_range_invariant (SliderState.mk 50 0 100 1)
    (Reachable.of_new 50 0 100 _ (by decide))

end TuiSlider
